import Mathlib

/-!
Verification of the HAK-GAL reasoning kernel (shallow embedding).

Python strings are modelled as `List Char` (`Str`); Python `None` / `Optional`
as `Option`; float arithmetic (durations, success rates) as exact rationals;
wall-clock timestamps are not modelled (duration arguments are threaded as
explicit parameters, timestamps in cache entries are dropped).  Python dicts
are modelled as association lists with insert-or-replace update.
-/

set_option maxRecDepth 10000

abbrev Str := List Char

namespace HakGal

/-- ASCII space-like characters recognised by Python's `str.strip` and `\s`
(the inputs of interest contain no exotic unicode whitespace). -/
def isSpaceChar (c : Char) : Bool :=
  c = ' ' || c = '\t' || c = '\n' || c = '\r' || c = '\x0b' || c = '\x0c'

/-- Characters counted as word characters by Python's `\w` on the alphabets
appearing in this code base (ASCII letters, digits, underscore and the German
letters used by the repository). -/
def isWordChar (c : Char) : Bool :=
  ('a' ≤ c && c ≤ 'z') || ('A' ≤ c && c ≤ 'Z') || ('0' ≤ c && c ≤ '9') || c = '_'
    || c = 'Ä' || c = 'Ö' || c = 'Ü' || c = 'ä' || c = 'ö' || c = 'ü' || c = 'ß'

/-- The character class `[A-ZÄÖÜ]`. -/
def isUpperStart (c : Char) : Bool :=
  ('A' ≤ c && c ≤ 'Z') || c = 'Ä' || c = 'Ö' || c = 'Ü'

/-- The character class `[a-zA-ZÄÖÜäöüß0-9_]` of the analyzer's regexes. -/
def isIdentChar (c : Char) : Bool :=
  ('a' ≤ c && c ≤ 'z') || ('A' ≤ c && c ≤ 'Z') || ('0' ≤ c && c ≤ '9') || c = '_'
    || c = 'Ä' || c = 'Ö' || c = 'Ü' || c = 'ä' || c = 'ö' || c = 'ü' || c = 'ß'

/-- Python `str.strip()` (strip whitespace from both ends). -/
def pyStrip (s : Str) : Str :=
  ((s.dropWhile isSpaceChar).reverse.dropWhile isSpaceChar).reverse

/-- Python `str.rstrip('.')`. -/
def rstripDot (s : Str) : Str :=
  (s.reverse.dropWhile (· = '.')).reverse

/-- Python `sub in s` (substring containment). -/
def containsSub (pat s : Str) : Bool :=
  match s with
  | [] => pat.isPrefixOf ([] : Str)
  | _ :: rest => pat.isPrefixOf s || containsSub pat rest

/-- Python `s.startswith(pat)`. -/
def startsWith (pat s : Str) : Bool := pat.isPrefixOf s

/-- Python `s.replace(pat, rep)` for a non-empty `pat`: replace all
non-overlapping occurrences, scanning left to right.  (The degenerate
empty-pattern case, which the repository never uses, is the identity.)
The `fuel` argument only makes the recursion structural: every step consumes
at least one character, so `s.length` steps always suffice. -/
def replaceAllFuel (pat rep : Str) : Nat → Str → Str
  | _, [] => []
  | 0, s => s
  | fuel + 1, c :: rest =>
    if pat ≠ [] ∧ pat.isPrefixOf (c :: rest) then
      rep ++ replaceAllFuel pat rep fuel ((c :: rest).drop pat.length)
    else
      c :: replaceAllFuel pat rep fuel rest

def replaceAll (pat rep s : Str) : Str := replaceAllFuel pat rep s.length s

/-- Python `s.split(sep)` for a single-character separator (keeps empty
pieces, like Python). -/
def splitOnChar (sep : Char) (s : Str) : List Str :=
  match s with
  | [] => [[]]
  | c :: rest =>
    let r := splitOnChar sep rest
    if c = sep then [] :: r
    else
      match r with
      | [] => [[c]]
      | p :: ps => (c :: p) :: ps

/-- Association-list lookup (Python `dict` access). -/
def lookupKey {α β : Type} [DecidableEq α] (k : α) : List (α × β) → Option β
  | [] => none
  | (k', v) :: rest => if k = k' then some v else lookupKey k rest

/-- Association-list insert-or-replace (Python `dict` assignment). -/
def alUpdate {α β : Type} [DecidableEq α] (k : α) (v : β) : List (α × β) → List (α × β)
  | [] => [(k, v)]
  | (k', v') :: rest => if k = k' then (k, v) :: rest else (k', v') :: alUpdate k v rest

end HakGal

namespace HakGal

/-- Single quote character (apostrophe), used in the Python reason strings. -/
def sq : Str := [Char.ofNat 39]

/-- Python `repr` of a list of strings, as produced by an f-string like
`f"... {assume_arg_list[:-1]} ..."`. -/
def pyListRepr (l : List Str) : Str :=
  "[".toList ++ (List.intercalate ", ".toList (l.map (fun x => sq ++ x ++ sq))) ++ "]".toList

/-! ### Pattern prover (`backend/adapters/provers/pattern.py`) -/

/-- `neg_goal = f"-{goal}" if not goal.startswith('-') else goal[1:]`
(shared by `PatternProver.prove` and `HAKGAL_Core_FOL.check_consistency`). -/
def negateGoal (goal : Str) : Str :=
  if ¬ startsWith "-".toList goal then '-' :: goal else goal.drop 1

/-- `PatternProver.prove`: exact match / negation match / unknown. -/
def pattern_prove (assumptions : List Str) (goal : Str) : Option Bool × Str :=
  if goal ∈ assumptions then
    (some true, "Pattern Matcher fand exakten Match für ".toList ++ sq ++ goal ++ sq ++ ".".toList)
  else
    let neg_goal := negateGoal goal
    if neg_goal ∈ assumptions then
      (some false, "Pattern Matcher fand Widerspruch für ".toList ++ sq ++ goal ++ sq ++ ".".toList)
    else
      (none, "Pattern Matcher fand keine Übereinstimmung.".toList)

/-! ### Functional-constraint prover (`backend/adapters/provers/functional_constraint.py`) -/

/-- `re.match(r'([A-ZÄÖÜ][\w]*)\(([^)]+)\)', s)`: anchored at the start only
(trailing characters after the closing parenthesis are ignored, as with
Python's `re.match`).  Returns the predicate name and the raw argument text.
The greedy `[\w]*` and `[^)]+` need no backtracking because the characters
that follow them (`(` and `)`) are outside the respective classes. -/
def matchAtomPrefix (s : Str) : Option (Str × Str) :=
  match s with
  | [] => none
  | c :: rest =>
    if isUpperStart c then
      let ident := rest.takeWhile isWordChar
      match rest.drop ident.length with
      | '(' :: r2 =>
        let args := r2.takeWhile (· ≠ ')')
        if args = [] then none
        else
          match r2.drop args.length with
          | ')' :: _ => some (c :: ident, args)
          | _ => none
      | _ => none
    else none

/-- `[arg.strip() for arg in args.split(',')]`. -/
def splitArgs (args : Str) : List Str :=
  (splitOnChar ',' args).map pyStrip

/-- The configured functional predicates (`self.functional_predicates`). -/
def functional_predicates : List Str :=
  ["Einwohner".toList, "Hauptstadt".toList, "Bevölkerung".toList, "Fläche".toList,
   "Temperatur".toList, "Geburtsjahr".toList, "LiegtIn".toList]

/-- The reason emitted on a functional conflict. -/
def fcConflictReason (goalPred : Str) (assumeArgs goalArgs : List Str) : Str :=
  "Functional Constraint Prover: Funktionaler Widerspruch - ".toList ++ goalPred
    ++ " kann für ".toList ++ pyListRepr assumeArgs.dropLast
    ++ " nicht sowohl ".toList ++ (assumeArgs.getLast?.getD [])
    ++ " als auch ".toList ++ (goalArgs.getLast?.getD [])
    ++ " sein".toList

/-- The scan over the assumptions inside `FunctionalConstraintProver.prove`:
returns the argument list of the first conflicting assumption, if any. -/
def fcFindConflict (goalPred : Str) (goalArgs : List Str) : List Str → Option (List Str)
  | [] => none
  | a :: rest =>
    match matchAtomPrefix (rstripDot (pyStrip a)) with
    | none => fcFindConflict goalPred goalArgs rest
    | some (p, argsRaw) =>
      let aArgs := splitArgs argsRaw
      if p = goalPred ∧ aArgs.length = goalArgs.length ∧ 2 ≤ aArgs.length ∧
          aArgs.dropLast = goalArgs.dropLast ∧ aArgs.getLast? ≠ goalArgs.getLast? then
        some aArgs
      else
        fcFindConflict goalPred goalArgs rest

/-- `FunctionalConstraintProver.prove`. -/
def fc_prove (assumptions : List Str) (goal : Str) : Option Bool × Str :=
  let goal_clean := rstripDot (pyStrip goal)
  match matchAtomPrefix goal_clean with
  | none =>
    (none, "Functional Constraint Prover: Kein atomares Prädikat erkannt in ".toList
      ++ sq ++ goal_clean ++ sq)
  | some (goal_predicate, argsRaw) =>
    let goal_arg_list := splitArgs argsRaw
    if goal_predicate ∈ functional_predicates then
      match fcFindConflict goal_predicate goal_arg_list assumptions with
      | some aArgs => (some false, fcConflictReason goal_predicate aArgs goal_arg_list)
      | none => (none, "Functional Constraint Prover: Kein funktionaler Widerspruch gefunden".toList)
    else
      (none, "Functional Constraint Prover: ".toList ++ sq ++ goal_predicate ++ sq
        ++ " ist nicht funktional".toList)

end HakGal

namespace HakGal

/-! ### Proof cache (`backend/api/base_cache.py`, `backend/infrastructure/caching.py`)

Cache entries drop the Python timestamp (`time.time()` is not modelled);
an entry is the stored `(success, reason)` pair. -/

abbrev CacheKey := List Str × Str

structure ProofCacheState where
  entries : List (CacheKey × (Bool × Str))
  hits : Nat
  misses : Nat
deriving DecidableEq, Repr

/-- A fresh cache, also the state after `BaseCache.clear` (which empties the
map and resets both counters). -/
def initCache : ProofCacheState := ⟨[], 0, 0⟩

/-- `BaseCache.get` via `ProofCache.get`: returns the entry and bumps the
hit/miss counter. -/
def cacheGet (key : CacheKey) (c : ProofCacheState) : Option (Bool × Str) × ProofCacheState :=
  match lookupKey key c.entries with
  | some v => (some v, { c with hits := c.hits + 1 })
  | none => (none, { c with misses := c.misses + 1 })

/-- `BaseCache.put` via `ProofCache.put`. -/
def cachePut (key : CacheKey) (v : Bool × Str) (c : ProofCacheState) : ProofCacheState :=
  { c with entries := alUpdate key v c.entries }

/-! ### Portfolio manager (`backend/services/prover_portfolio_manager.py`) -/

structure PortfolioState where
  /-- `prover_performance`: name ↦ (`success_rate`, `avg_duration`), floats
  modelled as exact rationals. -/
  perf : List (Str × (ℚ × ℚ))
  /-- `prover_usage_count`: name ↦ count. -/
  usage : List (Str × Nat)
deriving DecidableEq

/-- `ProverPortfolioManager.update_performance`.  A missing record is
initialised to zeros before the update, exactly as the Python `if ... not in`
blocks do.  The `formula` argument is unused by the source beyond logging. -/
def update_performance (ps : PortfolioState) (prover_name : Str) (formula : Str)
    (success : Bool) (duration : ℚ) : PortfolioState :=
  let current := (lookupKey prover_name ps.perf).getD (0, 0)
  let current_count : Nat := (lookupKey prover_name ps.usage).getD 0
  let new_success_rate : ℚ :=
    (current.1 * current_count + (if success then 1 else 0)) / ((current_count : ℚ) + 1)
  let new_avg_duration : ℚ :=
    (current.2 * current_count + duration) / ((current_count : ℚ) + 1)
  { perf := alUpdate prover_name (new_success_rate, new_avg_duration) ps.perf,
    usage := alUpdate prover_name (current_count + 1) ps.usage }

/-! ### Reasoning kernel (`backend/core/fol_core.py`) -/

/-- A prover as the kernel sees it.  `prove` returning `none` models a raised
exception; `some (verdict, reason)` models a normal return with
`verdict ∈ {True, False, None}` modelled as `Option Bool`. -/
structure Prover where
  name : Str
  prove : List Str → Str → Option (Option Bool × Str)

structure CoreState where
  K : List Str
  proof_cache : ProofCacheState
  /-- `portfolio_manager` (`None` until injected). -/
  portfolio : Option PortfolioState
  parser_stats_total : Nat
  parser_stats_success : Nat
  parser_stats_failed : Nat
deriving DecidableEq

def initCore : CoreState := ⟨[], initCache, none, 0, 0, 0⟩

/-- `HAKGAL_Core_FOL.add_fact`. -/
def add_fact (st : CoreState) (formula_str : Str) : Bool × CoreState :=
  if formula_str ∉ st.K then
    (true, { st with K := st.K ++ [formula_str], proof_cache := initCache })
  else
    (false, st)

/-- `HAKGAL_Core_FOL.retract_fact` (Python `list.remove` removes the first
occurrence). -/
def retract_fact (st : CoreState) (fact_to_remove : Str) : Bool × CoreState :=
  if fact_to_remove ∈ st.K then
    (true, { st with K := st.K.erase fact_to_remove, proof_cache := initCache })
  else
    (false, st)

/-- Lexicographic order on strings by code point, as used by Python's
`sorted`. -/
def strLe : Str → Str → Bool
  | [], _ => true
  | _ :: _, [] => false
  | a :: as, b :: bs => if a = b then strLe as bs else decide (a < b)

/-- Insertion sort by `strLe`; elements comparing equal under `strLe` in both
directions are identical strings, so this computes the same list as Python's
stable `sorted`. -/
def insertSorted (x : Str) : List Str → List Str
  | [] => [x]
  | y :: ys => if strLe x y then x :: y :: ys else y :: insertSorted x ys

def sortKB (l : List Str) : List Str := l.foldr insertSorted []

/-- The performance update the kernel performs after a prover invocation
(only when a portfolio manager is injected).  Wall time is not modelled, so
the recorded duration is 0. -/
def portfolioUpd (st : CoreState) (name q : Str) (definitive : Bool) : CoreState :=
  match st.portfolio with
  | some pm => { st with portfolio := some (update_performance pm name q definitive 0) }
  | none => st

/-- The sequential prover loop of `HAKGAL_Core_FOL.verify_logical`:
on a raised exception, record a non-definitive update and continue; on a
normal return, record the update, cache **only** a `True` verdict, return on
any definitive verdict, else continue. -/
def runProvers (full_kb : List Str) (q : Str) (key : CacheKey) :
    List Prover → CoreState → (Option Bool × Str) × CoreState
  | [], st => ((none, "Kein Prover konnte eine definitive Antwort finden.".toList), st)
  | p :: rest, st =>
    match p.prove full_kb q with
    | none =>
      runProvers full_kb q key rest (portfolioUpd st p.name q false)
    | some (success, reason) =>
      let st1 := portfolioUpd st p.name q success.isSome
      match success with
      | some true =>
        ((some true, reason), { st1 with proof_cache := cachePut key (true, reason) st1.proof_cache })
      | some false => ((some false, reason), st1)
      | none => runProvers full_kb q key rest st1

/-- `HAKGAL_Core_FOL.verify_logical`.  `select` models
`ProverPortfolioManager.select_prover_strategy`, kept as a parameter because
the concrete recommendation list depends on the runtime environment
(`_recommend_provers` probes the Wolfram client); it is only consulted when a
portfolio manager is injected, exactly as in the source. -/
def verify_logical (select : Str → List Prover → List Prover) (provers : List Prover)
    (query_str : Str) (full_kb : List Str) (st : CoreState) :
    (Option Bool × Str) × CoreState :=
  let cache_key : CacheKey := (sortKB full_kb, query_str)
  match cacheGet cache_key st.proof_cache with
  | (some cached, c') => ((some cached.1, cached.2), { st with proof_cache := c' })
  | (none, c') =>
    let st1 := { st with proof_cache := c' }
    let ordered := if st1.portfolio.isSome then select query_str provers else provers
    runProvers full_kb query_str cache_key ordered st1

/-- `HAKGAL_Core_FOL.check_consistency`.  The result's first component is
`none` when the direct `functional_prover.prove` call raised (that exception
is not caught in the source and propagates to the caller). -/
def check_consistency (select : Str → List Prover → List Prover) (provers : List Prover)
    (st : CoreState) (new_fact : Str) : Option (Bool × Option Str) × CoreState :=
  let negated_fact := negateGoal new_fact
  match verify_logical select provers negated_fact st.K st with
  | ((is_contradictory, reason), st') =>
    if is_contradictory = some true then
      (some (false, some ("Widerspruch! Neuer Fakt ".toList ++ sq ++ new_fact ++ sq
        ++ " widerspricht KB (".toList ++ reason ++ ")".toList)), st')
    else
      match provers.find? (fun p => p.name = "Functional Constraint Prover".toList) with
      | none => (some (true, none), st')
      | some functional_prover =>
        match functional_prover.prove st'.K new_fact with
        | none => (none, st')
        | some (success, r) =>
          if success = some false then
            (some (false, some ("Funktionaler Widerspruch! ".toList ++ r)), st')
          else
            (some (true, none), st')

/-- `HAKGAL_Core_FOL.update_parser_stats`. -/
def update_parser_stats (st : CoreState) (success : Bool) : CoreState :=
  { st with
    parser_stats_total := st.parser_stats_total + 1,
    parser_stats_success := st.parser_stats_success + (if success then 1 else 0),
    parser_stats_failed := st.parser_stats_failed + (if success then 0 else 1) }

end HakGal

namespace HakGal

/-! ### Normalizer (`KAssistant._normalize_and_correct_syntax`,
`backend/services/k_assistant_original.py` lines 133–179) -/

/-- The character class `[a-zA-ZÄÖÜ0-9]` of the hyphen-removal regex
(capital umlauts only — no `ä ö ü ß _`). -/
def isHyphenIdentChar (c : Char) : Bool :=
  ('a' ≤ c && c ≤ 'z') || ('A' ≤ c && c ≤ 'Z') || ('0' ≤ c && c ≤ '9')
    || c = 'Ä' || c = 'Ö' || c = 'Ü'

/-- One match attempt of `\b([A-ZÄÖÜ][a-zA-ZÄÖÜ0-9]*)-([a-zA-ZÄÖÜ0-9]+)\b`
at the head of `s`, where `prevIsWord` says whether the character preceding
`s` in the original string is a `\w` character (`false` at the start of the
string).  Returns `(replacement \1\2, remainder)` on success.  The greedy
star needs no backtracking: `-` is outside the class, and a shorter second
group would end before another class character, which is always a `\w`
character, so the trailing `\b` can only hold after the maximal run. -/
def hyphenMatchAt (prevIsWord : Bool) (s : Str) : Option (Str × Nat) :=
  match s with
  | [] => none
  | c :: rest =>
    if isUpperStart c && !prevIsWord then
      let g1 := rest.takeWhile isHyphenIdentChar
      match rest.drop g1.length with
      | '-' :: r2 =>
        let g2 := r2.takeWhile isHyphenIdentChar
        if g2.isEmpty then none
        else
          let boundaryOk :=
            match r2.drop g2.length with
            | [] => true
            | d :: _ => !isWordChar d
          if boundaryOk then some (c :: (g1 ++ g2), g1.length + 1 + g2.length) else none
      | _ => none
    else none

/-- `re.sub` of the hyphen-removal pattern: scan left to right, replacing
non-overlapping matches (the matcher reports how many characters beyond the
first the match consumed); scanning resumes after each match, whose last
character is always a word character, hence `prevIsWord := true` there.
`fuel` only makes the recursion structural; `s.length` steps suffice. -/
def hyphenSubFuel : Nat → Bool → Str → Str
  | _, _, [] => []
  | 0, _, s => s
  | fuel + 1, prevIsWord, c :: rest =>
    match hyphenMatchAt prevIsWord (c :: rest) with
    | some (rep, k) => rep ++ hyphenSubFuel fuel true (rest.drop k)
    | none => c :: hyphenSubFuel fuel (isWordChar c) rest

def hyphenSub (prevIsWord : Bool) (s : Str) : Str := hyphenSubFuel s.length prevIsWord s

/-- Generic `re.sub` scanner for patterns that cannot match the empty string:
`m s` returns the length of the (unique, leftmost-at-this-position) match of
the pattern at the head of `s`, or `none`.  A (degenerate, never occurring)
zero-length match is treated as no match.  `fuel` only makes the recursion
structural; `s.length` steps suffice. -/
def subScanAllFuel (m : Str → Option Nat) (rep : Str) : Nat → Str → Str
  | _, [] => []
  | 0, s => s
  | fuel + 1, c :: rest =>
    match m (c :: rest) with
    | some (n + 1) => rep ++ subScanAllFuel m rep fuel (rest.drop n)
    | _ => c :: subScanAllFuel m rep fuel rest

def subScanAll (m : Str → Option Nat) (rep s : Str) : Str := subScanAllFuel m rep s.length s

/-- Matcher for a literal pattern. -/
def mLit (pat : Str) (s : Str) : Option Nat :=
  if pat.isPrefixOf s then some pat.length else none

/-- Matcher for `IstTechnischesLegacy(System)?` (greedy optional group). -/
def mSynLegacy (s : Str) : Option Nat :=
  if "IstTechnischesLegacySystem".toList.isPrefixOf s then
    some "IstTechnischesLegacySystem".toList.length
  else if "IstTechnischesLegacy".toList.isPrefixOf s then
    some "IstTechnischesLegacy".toList.length
  else none

/-- Matcher for `SollteRefactoringInBetrachtGezo[h|e]genWerden` (the class
`[h|e]` matches `h`, `|` or `e`). -/
def mSynGezogen (s : Str) : Option Nat :=
  let pre := "SollteRefactoringInBetrachtGezo".toList
  let post := "genWerden".toList
  if pre.isPrefixOf s then
    match s.drop pre.length with
    | c :: rest =>
      if (c = 'h' || c = '|' || c = 'e') && post.isPrefixOf rest then
        some (pre.length + 1 + post.length)
      else none
    | [] => none
  else none

/-- The synonym-table pass: the eight `re.sub` calls in dictionary order. -/
def synonymSubs (s : Str) : Str :=
  let s := subScanAll mSynLegacy "IstLegacy".toList s
  let s := subScanAll mSynGezogen "SollteRefactoredWerden".toList s
  let s := subScanAll (mLit "SollteIdentifiziertUndRefactoredWerden".toList)
    "SollteRefactoredWerden".toList s
  let s := subScanAll (mLit "IstBasierendAufCobolMainframe".toList) "IstCobolMainframe".toList s
  let s := subScanAll (mLit "BasiertAufCobolMainframe".toList) "IstCobolMainframe".toList s
  let s := subScanAll (mLit "BasiertAufModernerJavaMicroservice".toList)
    "IstJavaMicroservice".toList s
  let s := subScanAll (mLit "IstBasierendAufJavaMicroservice".toList)
    "IstJavaMicroservice".toList s
  subScanAll (mLit "HatGeringeBetriebskosten".toList) "HatNiedrigeBetriebskosten".toList s

/-- `while corrected.startswith('--'): corrected = corrected[2:]`. -/
def dropDoubleNeg : Str → Str
  | '-' :: '-' :: rest => dropDoubleNeg rest
  | s => s

/-- The ASCII class `[a-zA-Z0-9_]` of the nullary-predicate regex. -/
def isNullaryIdentChar (c : Char) : Bool :=
  ('a' ≤ c && c ≤ 'z') || ('A' ≤ c && c ≤ 'Z') || ('0' ≤ c && c ≤ '9') || c = '_'

/-- `re.match(r"^[A-ZÄÖÜ][a-zA-Z0-9_]*\.$", s)` (`$` modelled as end of
string; none of the repository's formulas end in a newline). -/
def nullaryMatch (s : Str) : Bool :=
  match s with
  | [] => false
  | c :: rest =>
    isUpperStart c && decide (rest.drop (rest.takeWhile isNullaryIdentChar).length = ['.'])

/-- `KAssistant._normalize_and_correct_syntax`: hyphen removal, synonym
mapping, strip + `:-`→`->` + `~`→`-`, leading `--` collapse, and the
nullary-predicate rewrite (whose `.replace('.', '().')` touches the single
period the regex guarantees). -/
def normalize_and_correct (formula : Str) : Str :=
  let corrected := hyphenSub false formula
  let corrected := synonymSubs corrected
  let corrected := replaceAll "~".toList "-".toList
    (replaceAll ":-".toList "->".toList (pyStrip corrected))
  let corrected := dropDoubleNeg corrected
  if nullaryMatch corrected then replaceAll ".".toList "().".toList corrected
  else corrected


end HakGal

namespace HakGal


end HakGal

namespace HakGal

/-! ### Complexity analyzer (`backend/services/complexity_analyzer.py`,
`_estimate_complexity`) -/

inductive ComplexityLevel
  | low
  | medium
  | high
  | unknown
deriving DecidableEq, Repr

/-- Generic `re.search`: try a head-anchored matcher at every position. -/
def searchScan (p : Str → Bool) : Str → Bool
  | [] => p []
  | c :: rest => p (c :: rest) || searchScan p rest

/-- Head-anchored match of `all\s+\w+` (greedy runs need no backtracking:
`\w` excludes whitespace). -/
def quantMatchAt (s : Str) : Bool :=
  if "all".toList.isPrefixOf s then
    let rest := s.drop 3
    let ws := rest.takeWhile isSpaceChar
    !ws.isEmpty &&
      (match rest.drop ws.length with
       | c :: _ => isWordChar c
       | [] => false)
  else false

/-- Head-anchored match of `->\s*all` (`all` starts with a non-space, so the
greedy `\s*` needs no backtracking). -/
def implAllMatchAt (s : Str) : Bool :=
  if "->".toList.isPrefixOf s then
    let rest := s.drop 2
    let ws := rest.takeWhile isSpaceChar
    "all".toList.isPrefixOf (rest.drop ws.length)
  else false

/-- `re.search(r'&.*&.*&', s)`: `.` does not match a newline, and every other
pattern character is `&`, so a match is exactly a newline-free stretch
containing three `&`; it exists iff some `\n`-separated segment of `s`
contains at least three `&` characters. -/
def searchTripleAmp (s : Str) : Bool :=
  (splitOnChar '\n' s).any (fun seg => 3 ≤ seg.count '&')

/-- `len(re.findall(r'[&|]|->|-', s))`: the scanner mirrors the regex
alternation order (`[&|]` first, then `->`, then `-`). -/
def connectiveCount : Str → Nat
  | [] => 0
  | '&' :: rest => 1 + connectiveCount rest
  | '|' :: rest => 1 + connectiveCount rest
  | '-' :: '>' :: rest => 1 + connectiveCount rest
  | '-' :: rest => 1 + connectiveCount rest
  | _ :: rest => connectiveCount rest

/-- `re.match(r'^[A-ZÄÖÜ][a-zA-ZÄÖÜäöüß0-9_]*\([^)]*\)\.$', s)` (`$` modelled
as end of string). -/
def lowAtomicMatch (s : Str) : Bool :=
  match s with
  | [] => false
  | c :: rest =>
    isUpperStart c &&
      (match rest.drop (rest.takeWhile isIdentChar).length with
       | '(' :: r2 =>
         decide (r2.drop (r2.takeWhile (· ≠ ')')).length = [')', '.'])
       | _ => false)

/-- `any(re.search(pattern, formula) for pattern in self.high_complexity_patterns)`. -/
def highComplexitySearch (formula : Str) : Bool :=
  searchScan quantMatchAt formula || searchScan implAllMatchAt formula || searchTripleAmp formula

/-- `ComplexityAnalyzer._estimate_complexity`. -/
def estimate_complexity (formula : Str) : ComplexityLevel :=
  if highComplexitySearch formula then ComplexityLevel.high
  else if 1 < connectiveCount formula then ComplexityLevel.medium
  else if lowAtomicMatch formula then ComplexityLevel.low
  else ComplexityLevel.unknown


/-! ### Parser regex fallback (`backend/core/parser.py`, `_regex_fallback`) -/

/-- The character class `[A-Za-zÄÖÜäöüß0-9\s\(\),\->&|._-]`. -/
def fallbackAllowedChar (c : Char) : Bool :=
  ('a' ≤ c && c ≤ 'z') || ('A' ≤ c && c ≤ 'Z') || ('0' ≤ c && c ≤ '9')
    || c = 'Ä' || c = 'Ö' || c = 'Ü' || c = 'ä' || c = 'ö' || c = 'ü' || c = 'ß'
    || isSpaceChar c || c = '(' || c = ')' || c = ',' || c = '-' || c = '>'
    || c = '&' || c = '|' || c = '.' || c = '_'

/-- `HAKGALParser._regex_fallback` (the parse tree, always `None` here, is
dropped; result is `(ok, message)`). -/
def regex_fallback (formula : Str) : Bool × Str :=
  if ¬ (".".toList.isSuffixOf (pyStrip formula)) then
    (false, "Formel muss mit ".toList ++ sq ++ ".".toList ++ sq ++ " enden".toList)
  else if ¬ (!formula.isEmpty && formula.all fallbackAllowedChar) then
    (false, "Ungültige Zeichen".toList)
  else if formula.count '(' ≠ formula.count ')' then
    (false, "Unbalancierte Klammern".toList)
  else
    (true, "Syntax OK (Regex-Fallback)".toList)

/-! ### `KAssistant.add_raw` (`backend/services/k_assistant_original.py`,
lines 299–320) -/

inductive AddOutcome
  | invalidSyntax (msg : Str)
  | rejected (reason : Option Str)
  | added
  | alreadyPresent
  /-- An exception escaped `check_consistency` (the direct
  `functional_prover.prove` call is not wrapped in a `try`). -/
  | raised
deriving DecidableEq

/-- `KAssistant.add_raw`: normalize, parse-validate (parser kept as a
parameter: with `lark` installed it is the LALR grammar parser, otherwise the
regex fallback embedded above), consistency-check, insert.  The returned
state reflects all kernel mutations performed on the way. -/
def add_raw (parse : Str → Bool × Str) (select : Str → List Prover → List Prover)
    (provers : List Prover) (st : CoreState) (formula : Str) : AddOutcome × CoreState :=
  let normalized_formula := normalize_and_correct formula
  let (is_valid, msg) := parse normalized_formula
  let st1 := update_parser_stats st is_valid
  if ¬ is_valid then (AddOutcome.invalidSyntax msg, st1)
  else
    match check_consistency select provers st1 normalized_formula with
    | (none, st2) => (AddOutcome.raised, st2)
    | (some (is_consistent, reason), st2) =>
      if is_consistent then
        match add_fact st2 normalized_formula with
        | (true, st3) => (AddOutcome.added, st3)
        | (false, st3) => (AddOutcome.alreadyPresent, st3)
      else
        (AddOutcome.rejected reason, st2)

end HakGal

namespace HakGal

/-! ### Wolfram oracle adapter (`backend/adapters/provers/wolfram.py`) -/

/-- Python `str.lower()` on the alphabet used by this code base. -/
def pyLowerChar (c : Char) : Char :=
  if 'A' ≤ c && c ≤ 'Z' then Char.ofNat (c.toNat + 32)
  else if c = 'Ä' then 'ä'
  else if c = 'Ö' then 'ö'
  else if c = 'Ü' then 'ü'
  else c

def pyLower (s : Str) : Str := s.map pyLowerChar

/-- `WolframProver._translate_german_terms`: the fifteen `str.replace` calls
in dictionary order. -/
def germanTranslations : List (Str × Str) :=
  [("bevölkerung".toList, "population".toList),
   ("hauptstadt".toList, "capital".toList),
   ("wetter".toList, "weather".toList),
   ("währung".toList, "currency".toList),
   ("fläche".toList, "area".toList),
   ("temperatur".toList, "temperature".toList),
   ("zeitzone".toList, "timezone".toList),
   ("deutschland".toList, "germany".toList),
   ("frankreich".toList, "france".toList),
   ("italien".toList, "italy".toList),
   ("spanien".toList, "spain".toList),
   ("großbritannien".toList, "united kingdom".toList),
   ("england".toList, "england".toList),
   ("österreich".toList, "austria".toList),
   ("schweiz".toList, "switzerland".toList)]

def translate_german_terms (text : Str) : Str :=
  germanTranslations.foldl (fun t p => replaceAll p.1 p.2 t) text

/-- Python `str.removesuffix('.')`. -/
def removesuffixDot (s : Str) : Str :=
  if ".".toList.isSuffixOf s then s.dropLast else s

/-- Generic `re.search` returning the first (leftmost) match of a
head-anchored matcher. -/
def searchFirst {α : Type} (m : Str → Option α) : Str → Option α
  | [] => m []
  | c :: rest =>
    match m (c :: rest) with
    | some a => some a
    | none => searchFirst m rest

/-- Head-anchored match of `Einwohner\(([^,]+),`, returning group 1. -/
def einwohnerMatchAt (s : Str) : Option Str :=
  if "Einwohner(".toList.isPrefixOf s then
    let rest := s.drop "Einwohner(".toList.length
    let run := rest.takeWhile (· ≠ ',')
    if !run.isEmpty &&
        (match rest.drop run.length with
         | ',' :: _ => true
         | _ => false) then
      some run
    else none
  else none

/-- Head-anchored match of `Hauptstadt\(x,\s*([^)]+)\)`, returning group 1.
The only backtracking the pattern ever needs is when everything between the
comma and `)` is whitespace: the greedy `\s*` then gives one character back
so that `[^)]+` can match, leaving group 1 a single whitespace character. -/
def hauptstadtMatchAt (s : Str) : Option Str :=
  if "Hauptstadt(x,".toList.isPrefixOf s then
    let rest := s.drop "Hauptstadt(x,".toList.length
    let run := rest.takeWhile (· ≠ ')')
    if run.isEmpty then none
    else
      match rest.drop run.length with
      | ')' :: _ =>
        let grp := run.dropWhile isSpaceChar
        if grp.isEmpty then some (run.drop (run.length - 1)) else some grp
      | _ => none
  else none

/-- Head-anchored match of `Pred\(([^)]+)\)` for a literal predicate name. -/
def predArgMatchAt (pred : Str) (s : Str) : Option Str :=
  if (pred ++ "(".toList).isPrefixOf s then
    let rest := s.drop (pred.length + 1)
    let run := rest.takeWhile (· ≠ ')')
    if !run.isEmpty &&
        (match rest.drop run.length with
         | ')' :: _ => true
         | _ => false) then
      some run
    else none
  else none

/-- The `patterns`/`queries` tables of `_simple_translate`, in dictionary
order; each `"... {}"` template is its constant prefix (the argument is
appended). -/
def wolframPatterns : List (Str × Str) :=
  [("HauptstadtVon".toList, "capital of ".toList),
   ("Bevölkerung".toList, "population of ".toList),
   ("WetterIn".toList, "weather in ".toList),
   ("WährungVon".toList, "currency of ".toList),
   ("FlächeVon".toList, "area of ".toList),
   ("ZeitzoneVon".toList, "timezone of ".toList),
   ("Integral".toList, "integral of ".toList)]

/-- The `for pred, pattern in patterns.items()` loop of `_simple_translate`:
substring test, then regex search; a failed search falls through to the next
predicate. -/
def tryPatterns : List (Str × Str) → Str → Option Str
  | [], _ => none
  | (pred, tmpl) :: rest, formula =>
    if containsSub pred formula then
      match searchFirst (predArgMatchAt pred) formula with
      | some arg => some (tmpl ++ translate_german_terms (pyLower arg))
      | none => tryPatterns rest formula
    else tryPatterns rest formula

/-- `re.sub(r'(?<!^)(?=[A-Z])', ' ', s)`: a space before every ASCII
uppercase letter except at the start of the string. -/
def camelSplitAux : Str → Str
  | [] => []
  | c :: rest =>
    if 'A' ≤ c && c ≤ 'Z' then ' ' :: c :: camelSplitAux rest else c :: camelSplitAux rest

def camelSplit : Str → Str
  | [] => []
  | c :: rest => c :: camelSplitAux rest

/-- `WolframProver._simple_translate`. -/
def simple_translate (formula0 : Str) : Str :=
  let formula := removesuffixDot (pyStrip formula0)
  let varCase : Option Str :=
    if containsSub ", x)".toList formula || containsSub ", y)".toList formula
        || containsSub ", z)".toList formula then
      let einw : Option Str :=
        if containsSub "Einwohner(".toList formula then
          (searchFirst einwohnerMatchAt formula).map
            (fun city => "population of ".toList ++ pyLower city)
        else none
      match einw with
      | some q => some q
      | none =>
        if containsSub "Hauptstadt(".toList formula
            && containsSub "Hauptstadt(x".toList formula then
          (searchFirst hauptstadtMatchAt formula).map
            (fun city => "country with capital ".toList ++ city)
        else none
    else none
  match varCase with
  | some q => q
  | none =>
    match tryPatterns wolframPatterns formula with
    | some q => q
    | none =>
      let clean_formula := replaceAll ",".toList " and ".toList
        (replaceAll ")".toList "".toList (replaceAll "(".toList " of ".toList formula))
      translate_german_terms (pyLower (camelSplit clean_formula))

/-- Environment of one `WolframProver.prove` call: whether a client is
configured, the oracle cache (timestamps dropped; `fresh` says whether a hit
is within the TTL), and the HTTP/XML outcome — `Except.error name` models a
raised exception of type `name`, `Except.ok answers` the `plaintext` fields
of all subpods in document order (`none` for a missing/empty element). -/
structure WolframEnv where
  clientConfigured : Bool
  cache : List (Str × (Bool × Str))
  fresh : Str → Bool
  response : Except Str (List (Option Str))

/-- The subpod scan inside `WolframProver.prove`: first usable answer wins;
an answer of length ≤ 2, or of length ≤ 5 matching neither the capital nor
the population heuristic, is skipped. -/
def wolframAnswerScan (query : Str) : List (Option Str) → Option (Bool × Str)
  | [] => none
  | none :: rest => wolframAnswerScan query rest
  | some raw :: rest =>
    let answer := pyStrip raw
    if answer.isEmpty || ¬ (2 < answer.length) then wolframAnswerScan query rest
    else
      let answer_lower := pyLower answer
      let query_lower := pyLower query
      if containsSub "capital".toList query_lower &&
          (["london".toList, "berlin".toList, "paris".toList, "madrid".toList,
            "rome".toList, "moscow".toList].any (fun city => containsSub city answer_lower)) then
        some (true, "Hauptstadt: ".toList ++ answer)
      else if containsSub "population".toList query_lower && answer.any Char.isDigit then
        some (true, "Bevölkerung: ".toList ++ answer)
      else if 5 < answer.length then
        some (true, "Wolfram: ".toList ++ answer)
      else
        wolframAnswerScan query rest

/-- The HTTP branch of `WolframProver.prove`, including `_cache_result` on a
successful extraction. -/
def wolfram_http (query : Str) (env : WolframEnv) :
    (Option Bool × Str) × List (Str × (Bool × Str)) :=
  match env.response with
  | Except.error ename => ((none, "Wolfram-Fehler: ".toList ++ ename), env.cache)
  | Except.ok answers =>
    match wolframAnswerScan query answers with
    | some (v, reason) => ((some v, reason), alUpdate query (v, reason) env.cache)
    | none => ((none, "Keine verwertbare Antwort von Wolfram Alpha".toList), env.cache)

/-- `WolframProver.prove`.  Returns the verdict/reason pair and the oracle
cache after the call.  The `assumptions` argument is unused by the source. -/
def wolfram_prove (env : WolframEnv) (assumptions : List Str) (goal : Str) :
    (Option Bool × Str) × List (Str × (Bool × Str)) :=
  if ¬ env.clientConfigured then
    ((none, "WolframProver ist nicht konfiguriert.".toList), env.cache)
  else if containsSub "->".toList goal || containsSub "&".toList goal
      || containsSub "|".toList goal || containsSub "all ".toList goal then
    ((none, "WolframProver unterstützt nur atomare Fakten.".toList), env.cache)
  else
    let query := simple_translate goal
    if query.isEmpty then
      ((none, "Konnte Formel nicht übersetzen.".toList), env.cache)
    else
      match lookupKey query env.cache with
      | some (cached_result, cached_reason) =>
        if env.fresh query then
          ((some cached_result, cached_reason ++ " (aus Cache)".toList), env.cache)
        else
          wolfram_http query env
      | none => wolfram_http query env

end HakGal

namespace HakGal


end HakGal

namespace HakGal

/-! ### Prover instances as injected into the kernel (`backend/main.py`
wires `PatternProver()` and `FunctionalConstraintProver()` into
`set_provers`) -/

def patternProver : Prover :=
  { name := "Pattern Matcher".toList,
    prove := fun assumptions goal => some (pattern_prove assumptions goal) }

def functionalConstraintProver : Prover :=
  { name := "Functional Constraint Prover".toList,
    prove := fun assumptions goal => some (fc_prove assumptions goal) }

/-- Spec-side reading (for comparison with the source behaviour): the claim's
"the goal is an atomic formula `P(a₁,…,aₙ)`" — after the same
whitespace/period cleanup the prover itself performs, the *entire* remaining
string is one predicate application, with nothing following the closing
parenthesis. -/
def isAtomicFormula (s : Str) : Bool :=
  let t := rstripDot (pyStrip s)
  match matchAtomPrefix t with
  | some (pred, args) => decide (t = pred ++ "(".toList ++ args ++ ")".toList)
  | none => false

/-- Fresh portfolio-manager state (`prover_performance = {}`,
`prover_usage_count = {}`). -/
def initPortfolio : PortfolioState := ⟨[], []⟩

/-- A sequence of `update_performance` calls for one prover: each element is
(the verdict was definitive, measured duration). -/
def apply_updates (name : Str) (updates : List (Bool × ℚ)) (ps : PortfolioState) :
    PortfolioState :=
  updates.foldl (fun s u => update_performance s name [] u.1 u.2) ps

def success_rate_of (ps : PortfolioState) (name : Str) : ℚ :=
  ((lookupKey name ps.perf).getD (0, 0)).1

def avg_duration_of (ps : PortfolioState) (name : Str) : ℚ :=
  ((lookupKey name ps.perf).getD (0, 0)).2

def usage_of (ps : PortfolioState) (name : Str) : Nat :=
  (lookupKey name ps.usage).getD 0

end HakGal

namespace HakGal

/-! ### Shared lemmas -/

theorem lookup_alUpdate_self {α β : Type} [DecidableEq α] (k : α) (v : β) (l : List (α × β)) :
    lookupKey k (alUpdate k v l) = some v := by
  induction l with
  | nil => simp [alUpdate, lookupKey]
  | cons hd tl ih =>
    obtain ⟨k', v'⟩ := hd
    by_cases h : k = k' <;> simp [alUpdate, lookupKey, h, ih]

theorem lookup_alUpdate_cases {α β : Type} [DecidableEq α] {q k : α} {v w : β}
    {l : List (α × β)} (h : lookupKey q (alUpdate k v l) = some w) :
    (q = k ∧ w = v) ∨ lookupKey q l = some w := by
  induction l with
  | nil =>
    simp only [alUpdate, lookupKey] at h
    by_cases hq : q = k
    · rw [if_pos hq] at h
      exact Or.inl ⟨hq, (Option.some_injective _ h).symm⟩
    · rw [if_neg hq] at h
      exact absurd h (by simp)
  | cons hd tl ih =>
    obtain ⟨k', v'⟩ := hd
    by_cases hk : k = k'
    · subst hk
      simp only [alUpdate, if_pos rfl, lookupKey] at h
      by_cases hq : q = k
      · rw [if_pos hq] at h
        exact Or.inl ⟨hq, (Option.some_injective _ h).symm⟩
      · rw [if_neg hq] at h
        right
        simp only [lookupKey, if_neg hq]
        exact h
    · simp only [alUpdate, if_neg hk, lookupKey] at h
      by_cases hq : q = k'
      · rw [if_pos hq] at h
        right
        simp only [lookupKey, if_pos hq]
        exact h
      · rw [if_neg hq] at h
        rcases ih h with h2 | h2
        · exact Or.inl h2
        · right
          simp only [lookupKey, if_neg hq]
          exact h2

theorem mem_alUpdate {α β : Type} [DecidableEq α] {e : α × β} {k : α} {v : β}
    {l : List (α × β)} (h : e ∈ alUpdate k v l) : e = (k, v) ∨ e ∈ l := by
  induction l with
  | nil => simpa [alUpdate] using h
  | cons hd tl ih =>
    obtain ⟨k', v'⟩ := hd
    by_cases hk : k = k'
    · simp only [alUpdate, if_pos hk] at h
      rcases List.mem_cons.mp h with h1 | h1
      · exact Or.inl h1
      · exact Or.inr (List.mem_cons_of_mem _ h1)
    · simp only [alUpdate, if_neg hk] at h
      rcases List.mem_cons.mp h with h1 | h1
      · exact Or.inr (h1 ▸ List.mem_cons_self _ _)
      · rcases ih h1 with h2 | h2
        · exact Or.inl h2
        · exact Or.inr (List.mem_cons_of_mem _ h2)

end HakGal

namespace HakGal

theorem portfolioUpd_K (st : CoreState) (n q : Str) (b : Bool) :
    (portfolioUpd st n q b).K = st.K := by
  cases h : st.portfolio <;> simp [portfolioUpd, h]

theorem portfolioUpd_cache (st : CoreState) (n q : Str) (b : Bool) :
    (portfolioUpd st n q b).proof_cache = st.proof_cache := by
  cases h : st.portfolio <;> simp [portfolioUpd, h]

theorem runProvers_K (kb : List Str) (q : Str) (key : CacheKey) :
    ∀ (ps : List Prover) (st : CoreState), (runProvers kb q key ps st).2.K = st.K := by
  intro ps
  induction ps with
  | nil => intro st; simp [runProvers]
  | cons p rest ih =>
    intro st
    simp only [runProvers]
    rcases hp : p.prove kb q with _ | ⟨s, r⟩
    · rw [ih, portfolioUpd_K]
    · rcases s with _ | b
      · rw [ih, portfolioUpd_K]
      · cases b
        · simp [portfolioUpd_K]
        · simp [portfolioUpd_K]

theorem runProvers_entries (kb : List Str) (q : Str) (key : CacheKey) :
    ∀ (ps : List Prover) (st : CoreState),
      (runProvers kb q key ps st).2.proof_cache.entries
        = if (runProvers kb q key ps st).1.1 = some true
          then alUpdate key (true, (runProvers kb q key ps st).1.2) st.proof_cache.entries
          else st.proof_cache.entries := by
  intro ps
  induction ps with
  | nil => intro st; simp [runProvers]
  | cons p rest ih =>
    intro st
    simp only [runProvers]
    rcases hp : p.prove kb q with _ | ⟨s, r⟩
    · rw [ih, portfolioUpd_cache]
    · rcases s with _ | b
      · rw [ih, portfolioUpd_cache]
      · cases b
        · simp [portfolioUpd_cache]
        · simp [cachePut, portfolioUpd_cache]

theorem verify_logical_K (select : Str → List Prover → List Prover) (provers : List Prover)
    (q : Str) (kb : List Str) (st : CoreState) :
    (verify_logical select provers q kb st).2.K = st.K := by
  simp only [verify_logical]
  rcases hg : cacheGet (sortKB kb, q) st.proof_cache with ⟨res, c'⟩
  rcases res with _ | cached
  · simp only []
    rw [runProvers_K]
  · simp only []

theorem check_consistency_snd (select : Str → List Prover → List Prover)
    (provers : List Prover) (st : CoreState) (f : Str) :
    (check_consistency select provers st f).2
      = (verify_logical select provers (negateGoal f) st.K st).2 := by
  unfold check_consistency
  dsimp only
  rcases hv : verify_logical select provers (negateGoal f) st.K st with ⟨⟨v, r⟩, st'⟩
  dsimp only
  split
  · rfl
  · split
    · rfl
    · split
      · rfl
      · split <;> rfl

end HakGal

namespace HakGal

theorem runProvers_invariant (kb : List Str) (q : Str) (key : CacheKey) (ps : List Prover)
    (st : CoreState) (hinv : ∀ e ∈ st.proof_cache.entries, e.2.1 = true) :
    ∀ e ∈ (runProvers kb q key ps st).2.proof_cache.entries, e.2.1 = true := by
  intro e he
  have hE := runProvers_entries kb q key ps st
  by_cases ht : (runProvers kb q key ps st).1.1 = some true
  · rw [hE, if_pos ht] at he
    rcases mem_alUpdate he with h1 | h1
    · rw [h1]
    · exact hinv e h1
  · rw [hE, if_neg ht] at he
    exact hinv e he

/-! ### Claims -/

/-- C2: any `add_fact` of a not-yet-present fact, and any `retract_fact` of a
present fact, returns `True` and leaves the proof cache empty (entries
cleared, hit/miss counters reset), having cleared it synchronously before
returning. -/
theorem C2_mutation_clears_cache (st : CoreState) (f : Str) :
    (f ∉ st.K → (add_fact st f).1 = true ∧ (add_fact st f).2.proof_cache = initCache) ∧
    (f ∈ st.K → (retract_fact st f).1 = true ∧ (retract_fact st f).2.proof_cache = initCache) := by
  constructor
  · intro h
    simp [add_fact, h]
  · intro h
    simp [retract_fact, h]

/-- C2 witness: a concrete insertion into an empty KB and a concrete
retraction from a KB with a non-empty, non-trivial proof cache. -/
theorem C2_witness :
    ((add_fact initCore "P().".toList).1 = true ∧
      (add_fact initCore "P().".toList).2.proof_cache = initCache) ∧
    ((retract_fact { initCore with
        K := ["P().".toList],
        proof_cache := ⟨[(([], "Q.".toList), (true, []))], 3, 4⟩ } "P().".toList).1 = true ∧
      (retract_fact { initCore with
        K := ["P().".toList],
        proof_cache := ⟨[(([], "Q.".toList), (true, []))], 3, 4⟩ } "P().".toList).2.proof_cache
        = initCache) := by
  constructor
  · exact (C2_mutation_clears_cache initCore _).1 (by decide)
  · exact (C2_mutation_clears_cache _ _).2 (by decide)

/-- C4 (amended): the pattern prover returns proved iff the goal occurs
verbatim; refuted iff the goal does **not** occur but its syntactic negation
does (the verbatim check has priority); unknown iff neither occurs. -/
theorem C4_pattern_characterization (assumptions : List Str) (goal : Str) :
    ((pattern_prove assumptions goal).1 = some true ↔ goal ∈ assumptions) ∧
    ((pattern_prove assumptions goal).1 = some false ↔
      goal ∉ assumptions ∧ negateGoal goal ∈ assumptions) ∧
    ((pattern_prove assumptions goal).1 = none ↔
      goal ∉ assumptions ∧ negateGoal goal ∉ assumptions) := by
  unfold pattern_prove
  by_cases h1 : goal ∈ assumptions
  · simp [h1]
  · by_cases h2 : negateGoal goal ∈ assumptions <;> simp [h1, h2]

/-- C4 counterexample: as stated ("refuted iff the syntactic negation of the
goal appears in the assumption list"), the claim fails when both the goal and
its negation are present — the prover then returns proved, not refuted. -/
theorem C4_counterexample :
    ¬ (∀ (assumptions : List Str) (goal : Str),
        ((pattern_prove assumptions goal).1 = some true ↔ goal ∈ assumptions) ∧
        ((pattern_prove assumptions goal).1 = some false ↔ negateGoal goal ∈ assumptions)) := by
  intro h
  have h0 := h ["P.".toList, "-P.".toList] "P.".toList
  revert h0
  decide

/-- C10: on a proof-cache hit, `verify_logical` returns the cached verdict
and reason, and the entire kernel state is unchanged except that the cache's
hit counter is incremented: KB, cache entries, miss counter and the portfolio
performance records are untouched, and no prover is invoked (the result does
not depend on the provers at all). -/
theorem C10_cache_hit (select : Str → List Prover → List Prover) (provers : List Prover)
    (q : Str) (kb : List Str) (st : CoreState) (b : Bool) (r : Str)
    (h : lookupKey (sortKB kb, q) st.proof_cache.entries = some (b, r)) :
    verify_logical select provers q kb st
      = ((some b, r),
        { st with proof_cache := { st.proof_cache with hits := st.proof_cache.hits + 1 } }) := by
  unfold verify_logical
  dsimp only
  have hg : cacheGet (sortKB kb, q) st.proof_cache
      = (some (b, r), { st.proof_cache with hits := st.proof_cache.hits + 1 }) := by
    unfold cacheGet
    rw [h]
  rw [hg]

/-- C10 witness: a concrete hit, exercised with a prover list whose member
would refute the goal if it were invoked — the cached verdict wins and the
state change is exactly the hit-counter increment. -/
theorem C10_witness :
    verify_logical (fun _ ps => ps) [patternProver] "Q.".toList []
      { initCore with proof_cache := ⟨[((sortKB [], "Q.".toList), (true, "r".toList))], 1, 2⟩ }
      = ((some true, "r".toList),
        { initCore with proof_cache := ⟨[((sortKB [], "Q.".toList), (true, "r".toList))], 2, 2⟩ }) :=
  C10_cache_hit (fun _ ps => ps) [patternProver] "Q.".toList []
    { initCore with proof_cache := ⟨[((sortKB [], "Q.".toList), (true, "r".toList))], 1, 2⟩ }
    true "r".toList (by decide)

/-- C1 (amended): on a cache miss, `verify_logical` stores the verdict in the
proof cache before returning **only when it is proved**; a refuted verdict
and an all-unknown outcome leave the entries untouched, so every proof-cache
entry ever stored carries a proved verdict. -/
theorem C1_only_proved_cached (select : Str → List Prover → List Prover)
    (provers : List Prover) (q : Str) (kb : List Str) (st : CoreState) :
    (lookupKey (sortKB kb, q) st.proof_cache.entries = none →
      (((verify_logical select provers q kb st).1.1 = some true →
        (verify_logical select provers q kb st).2.proof_cache.entries
          = alUpdate (sortKB kb, q) (true, (verify_logical select provers q kb st).1.2)
              st.proof_cache.entries) ∧
       ((verify_logical select provers q kb st).1.1 ≠ some true →
        (verify_logical select provers q kb st).2.proof_cache.entries
          = st.proof_cache.entries))) ∧
    ((∀ e ∈ st.proof_cache.entries, e.2.1 = true) →
      ∀ e ∈ (verify_logical select provers q kb st).2.proof_cache.entries, e.2.1 = true) := by
  unfold verify_logical
  dsimp only
  rcases hl : lookupKey (sortKB kb, q) st.proof_cache.entries with _ | cached
  · have hg : cacheGet (sortKB kb, q) st.proof_cache
        = (none, { st.proof_cache with misses := st.proof_cache.misses + 1 }) := by
      unfold cacheGet
      rw [hl]
    rw [hg]
    dsimp only
    constructor
    · intro _
      constructor
      · intro ht
        have hE := runProvers_entries kb q (sortKB kb, q)
          (if st.portfolio.isSome = true then select q provers else provers)
          { st with proof_cache := { st.proof_cache with misses := st.proof_cache.misses + 1 } }
        rw [hE, if_pos ht]
      · intro ht
        have hE := runProvers_entries kb q (sortKB kb, q)
          (if st.portfolio.isSome = true then select q provers else provers)
          { st with proof_cache := { st.proof_cache with misses := st.proof_cache.misses + 1 } }
        rw [hE, if_neg ht]
    · intro hinv
      exact runProvers_invariant kb q (sortKB kb, q) _ _ hinv
  · have hg : cacheGet (sortKB kb, q) st.proof_cache
        = (some cached, { st.proof_cache with hits := st.proof_cache.hits + 1 }) := by
      unfold cacheGet
      rw [hl]
    rw [hg]
    dsimp only
    constructor
    · intro h
      exact absurd h (by simp)
    · intro hinv
      exact hinv

/-- C1 counterexample: with the pattern prover refuting the goal against KB
`{-P().}`, `verify_logical` returns the definitive verdict refuted from a
cache miss, yet stores nothing — the claim requires every definitive verdict
(proved or refuted) to be cached. -/
theorem C1_counterexample :
    ((verify_logical (fun _ ps => ps) [patternProver] "P().".toList ["-P().".toList]
        { initCore with K := ["-P().".toList] }).1.1 = some false) ∧
    (verify_logical (fun _ ps => ps) [patternProver] "P().".toList ["-P().".toList]
        { initCore with K := ["-P().".toList] }).2.proof_cache.entries = [] := by
  decide

/-- C1 witness: a proved verdict from a cache miss is stored, with the
prover's reason, and the all-proved cache invariant is maintained. -/
theorem C1_witness :
    ((verify_logical (fun _ ps => ps) [patternProver] "P().".toList ["P().".toList]
        { initCore with K := ["P().".toList] }).2.proof_cache.entries
      = [((sortKB ["P().".toList], "P().".toList),
          (true, "Pattern Matcher fand exakten Match für ".toList ++ sq ++ "P().".toList ++ sq
            ++ ".".toList))]) ∧
    (∀ e ∈ (verify_logical (fun _ ps => ps) [patternProver] "P().".toList ["P().".toList]
        { initCore with K := ["P().".toList] }).2.proof_cache.entries, e.2.1 = true) := by
  constructor
  · exact (((C1_only_proved_cached (fun _ ps => ps) [patternProver] "P().".toList
      ["P().".toList] { initCore with K := ["P().".toList] }).1 (by decide)).1
        (by decide)).trans (by decide)
  · exact (C1_only_proved_cached (fun _ ps => ps) [patternProver] "P().".toList
      ["P().".toList] { initCore with K := ["P().".toList] }).2
        (fun e he => absurd he (List.not_mem_nil e))

/-- C3: the normalizer is not idempotent — on the multi-hyphen entity
`A-B-C` one pass removes only the first hyphen (the `re.sub` scan resumes
after the matched text), so a second pass changes the string again. -/
theorem C3_normalize_not_idempotent :
    normalize_and_correct "A-B-C".toList = "AB-C".toList ∧
    normalize_and_correct (normalize_and_correct "A-B-C".toList) = "ABC".toList ∧
    normalize_and_correct (normalize_and_correct "A-B-C".toList)
      ≠ normalize_and_correct "A-B-C".toList := by
  decide

end HakGal

namespace HakGal

theorem fcFindConflict_isSome_iff (p : Str) (gargs : List Str) :
    ∀ l : List Str, (fcFindConflict p gargs l).isSome = true ↔
      ∃ a ∈ l, ∃ apred aRaw, matchAtomPrefix (rstripDot (pyStrip a)) = some (apred, aRaw) ∧
        apred = p ∧ (splitArgs aRaw).length = gargs.length ∧ 2 ≤ (splitArgs aRaw).length ∧
        (splitArgs aRaw).dropLast = gargs.dropLast ∧
        (splitArgs aRaw).getLast? ≠ gargs.getLast? := by
  intro l
  induction l with
  | nil => simp [fcFindConflict]
  | cons a rest ih =>
    simp only [fcFindConflict]
    rcases hm : matchAtomPrefix (rstripDot (pyStrip a)) with _ | ⟨ap, ar⟩
    · rw [ih]
      constructor
      · rintro ⟨x, hx, hprop⟩
        exact ⟨x, List.mem_cons_of_mem _ hx, hprop⟩
      · rintro ⟨x, hx, hprop⟩
        rcases List.mem_cons.mp hx with rfl | hx'
        · obtain ⟨apred, aRaw, hma, _⟩ := hprop
          rw [hm] at hma
          exact absurd hma (by simp)
        · exact ⟨x, hx', hprop⟩
    · dsimp only
      by_cases hc : ap = p ∧ (splitArgs ar).length = gargs.length ∧ 2 ≤ (splitArgs ar).length ∧
          (splitArgs ar).dropLast = gargs.dropLast ∧ (splitArgs ar).getLast? ≠ gargs.getLast?
      · rw [if_pos hc]
        simp only [Option.isSome_some, true_iff]
        exact ⟨a, List.mem_cons_self _ _, ap, ar, hm, hc⟩
      · rw [if_neg hc, ih]
        constructor
        · rintro ⟨x, hx, hprop⟩
          exact ⟨x, List.mem_cons_of_mem _ hx, hprop⟩
        · rintro ⟨x, hx, hprop⟩
          rcases List.mem_cons.mp hx with rfl | hx'
          · obtain ⟨apred, aRaw, hma, hrest⟩ := hprop
            rw [hm] at hma
            cases Option.some_injective _ hma
            exact absurd hrest hc
          · exact ⟨x, hx', hprop⟩

end HakGal

namespace HakGal

/-- C5 (amended): the functional-constraint prover never returns proved, and
returns refuted exactly when the goal's cleaned form **begins with** (the
`re.match` is anchored at the start only) an application `P(a₁,…,aₙ)` of a
configured functional predicate with `n ≥ 2`, and some assumption likewise
begins with a `P`-application of the same arity agreeing on the first `n−1`
arguments and differing in the last; in every other case it returns
unknown. -/
theorem C5_functional_characterization (assumptions : List Str) (goal : Str) :
    ((fc_prove assumptions goal).1 ≠ some true) ∧
    ((fc_prove assumptions goal).1 = some false ↔
      ∃ pred argsRaw, matchAtomPrefix (rstripDot (pyStrip goal)) = some (pred, argsRaw) ∧
        pred ∈ functional_predicates ∧
        ∃ a ∈ assumptions, ∃ apred aRaw,
          matchAtomPrefix (rstripDot (pyStrip a)) = some (apred, aRaw) ∧ apred = pred ∧
          (splitArgs aRaw).length = (splitArgs argsRaw).length ∧
          2 ≤ (splitArgs aRaw).length ∧
          (splitArgs aRaw).dropLast = (splitArgs argsRaw).dropLast ∧
          (splitArgs aRaw).getLast? ≠ (splitArgs argsRaw).getLast?) := by
  unfold fc_prove
  dsimp only
  rcases hm : matchAtomPrefix (rstripDot (pyStrip goal)) with _ | ⟨gp, gar⟩
  · refine ⟨by simp, ?_, ?_⟩
    · intro h
      exact absurd h (by simp)
    · rintro ⟨pred, argsRaw, heq, _⟩
      exact absurd heq (by simp)
  · dsimp only
    by_cases hin : gp ∈ functional_predicates
    · rw [if_pos hin]
      rcases hf : fcFindConflict gp (splitArgs gar) assumptions with _ | aArgs
      · refine ⟨by simp, ?_, ?_⟩
        · intro h
          exact absurd h (by simp)
        · rintro ⟨pred, argsRaw, heq, _, hex⟩
          cases Option.some_injective _ heq
          have : (fcFindConflict gp (splitArgs gar) assumptions).isSome = true :=
            (fcFindConflict_isSome_iff gp (splitArgs gar) assumptions).mpr hex
          rw [hf] at this
          exact absurd this (by simp)
      · refine ⟨by simp, ?_, ?_⟩
        · intro _
          have : (fcFindConflict gp (splitArgs gar) assumptions).isSome = true := by
            rw [hf]
            rfl
          obtain hex := (fcFindConflict_isSome_iff gp (splitArgs gar) assumptions).mp this
          exact ⟨gp, gar, rfl, hin, hex⟩
        · intro _
          rfl
    · rw [if_neg hin]
      refine ⟨by simp, ?_, ?_⟩
      · intro h
        exact absurd h (by simp)
      · rintro ⟨pred, argsRaw, heq, hmem, _⟩
        cases Option.some_injective _ heq
        exact absurd hmem hin

/-- C5 counterexample: the goal `Einwohner(a,b)x` is **not** an atomic
formula (characters trail the closing parenthesis), yet the prover refutes it
against the assumption `Einwohner(a,c)` because its `re.match` only anchors
at the start — the claim, which allows refuted only for atomic goals, is
false here. -/
theorem C5_counterexample :
    (fc_prove ["Einwohner(a,c)".toList] "Einwohner(a,b)x".toList).1 = some false ∧
    isAtomicFormula "Einwohner(a,b)x".toList = false := by
  decide

end HakGal

namespace HakGal

/-- C6: whenever the consistency check rejects the (normalized) new fact —
negation provable, or the functional-constraint prover refuting it —
`add_raw` returns the rejection with the check's reason and the knowledge
base is unchanged: nothing is inserted and nothing is removed. -/
theorem C6_rejection_preserves_kb (parse : Str → Bool × Str)
    (select : Str → List Prover → List Prover) (provers : List Prover) (st : CoreState)
    (formula : Str) (reason : Option Str)
    (hparse : (parse (normalize_and_correct formula)).1 = true)
    (hreject : (check_consistency select provers (update_parser_stats st true)
        (normalize_and_correct formula)).1 = some (false, reason)) :
    (add_raw parse select provers st formula).1 = AddOutcome.rejected reason ∧
    (add_raw parse select provers st formula).2.K = st.K := by
  unfold add_raw
  dsimp only
  rcases hpr : parse (normalize_and_correct formula) with ⟨ok, msg⟩
  rw [hpr] at hparse
  dsimp only at hparse
  subst hparse
  rw [if_neg (by simp)]
  rcases hcc : check_consistency select provers (update_parser_stats st true)
      (normalize_and_correct formula) with ⟨ocr, st2⟩
  rw [hcc] at hreject
  dsimp only at hreject
  subst hreject
  dsimp only
  rw [if_neg (by simp)]
  refine ⟨rfl, ?_⟩
  have h2 : st2 = (check_consistency select provers (update_parser_stats st true)
      (normalize_and_correct formula)).2 := by
    rw [hcc]
  rw [h2, check_consistency_snd, verify_logical_K]
  rfl

/-- C6 witness: adding `P().` against the KB `{-P().}` with the regex
fallback parser and the pattern prover: the negation is provable, the add is
rejected with the contradiction reason and the KB still holds exactly
`-P().`. -/
theorem C6_witness :
    (add_raw regex_fallback (fun _ ps => ps) [patternProver]
        { initCore with K := ["-P().".toList] } "P().".toList).1
      = AddOutcome.rejected (some ("Widerspruch! Neuer Fakt ".toList ++ sq ++ "P().".toList
          ++ sq ++ " widerspricht KB (".toList
          ++ ("Pattern Matcher fand exakten Match für ".toList ++ sq ++ "-P().".toList ++ sq
            ++ ".".toList) ++ ")".toList)) ∧
    (add_raw regex_fallback (fun _ ps => ps) [patternProver]
        { initCore with K := ["-P().".toList] } "P().".toList).2.K = ["-P().".toList] :=
  C6_rejection_preserves_kb regex_fallback (fun _ ps => ps) [patternProver]
    { initCore with K := ["-P().".toList] } "P().".toList _ (by decide) (by decide)

end HakGal

namespace HakGal

theorem searchScan_iff (p : Str → Bool) (s : Str) :
    searchScan p s = true ↔ ∃ t, t <:+ s ∧ p t = true := by
  induction s with
  | nil =>
    simp only [searchScan]
    constructor
    · intro h
      exact ⟨[], List.suffix_refl _, h⟩
    · rintro ⟨t, ht, hp⟩
      rw [List.suffix_nil.mp ht] at hp
      exact hp
  | cons c rest ih =>
    simp only [searchScan, Bool.or_eq_true, ih]
    constructor
    · rintro (h | ⟨t, ht, hp⟩)
      · exact ⟨c :: rest, List.suffix_refl _, h⟩
      · exact ⟨t, ht.trans (List.suffix_cons c rest), hp⟩
    · rintro ⟨t, ht, hp⟩
      rcases List.suffix_cons_iff.mp ht with rfl | ht'
      · exact Or.inl hp
      · exact Or.inr ⟨t, ht', hp⟩

/-- C7 (amended): the analyzer's level is `high` iff some suffix of the
formula matches the quantifier pattern `all\\s+\\w+` or the pattern
`->\\s*all`, or some newline-free segment contains at least three `&`;
otherwise `medium` iff the connective count (occurrences of `&`, `|`, `->`,
`-`, with `->` counted once) exceeds one; otherwise `low` iff the formula is
a single atomic predicate terminated by a period; otherwise `unknown` — a
fourth level the code can return. -/
theorem C7_complexity_characterization (s : Str) :
    (estimate_complexity s = ComplexityLevel.high ↔
      ((∃ t, t <:+ s ∧ quantMatchAt t = true) ∨ (∃ t, t <:+ s ∧ implAllMatchAt t = true) ∨
        (∃ seg ∈ splitOnChar '\n' s, 3 ≤ seg.count '&'))) ∧
    (estimate_complexity s = ComplexityLevel.medium ↔
      (¬ ((∃ t, t <:+ s ∧ quantMatchAt t = true) ∨ (∃ t, t <:+ s ∧ implAllMatchAt t = true) ∨
        (∃ seg ∈ splitOnChar '\n' s, 3 ≤ seg.count '&')) ∧ 1 < connectiveCount s)) ∧
    (estimate_complexity s = ComplexityLevel.low ↔
      (¬ ((∃ t, t <:+ s ∧ quantMatchAt t = true) ∨ (∃ t, t <:+ s ∧ implAllMatchAt t = true) ∨
        (∃ seg ∈ splitOnChar '\n' s, 3 ≤ seg.count '&')) ∧ ¬ 1 < connectiveCount s ∧
        lowAtomicMatch s = true)) ∧
    (estimate_complexity s = ComplexityLevel.unknown ↔
      (¬ ((∃ t, t <:+ s ∧ quantMatchAt t = true) ∨ (∃ t, t <:+ s ∧ implAllMatchAt t = true) ∨
        (∃ seg ∈ splitOnChar '\n' s, 3 ≤ seg.count '&')) ∧ ¬ 1 < connectiveCount s ∧
        ¬ lowAtomicMatch s = true)) := by
  have hH : (highComplexitySearch s = true) ↔
      ((∃ t, t <:+ s ∧ quantMatchAt t = true) ∨ (∃ t, t <:+ s ∧ implAllMatchAt t = true) ∨
        (∃ seg ∈ splitOnChar '\n' s, 3 ≤ seg.count '&')) := by
    unfold highComplexitySearch searchTripleAmp
    simp [searchScan_iff, List.any_eq_true, or_assoc]
  simp only [← hH]
  unfold estimate_complexity
  by_cases h1 : highComplexitySearch s = true <;>
    by_cases h2 : 1 < connectiveCount s <;>
    by_cases h3 : lowAtomicMatch s = true <;>
    simp [h1, h2, h3]

/-- C7 counterexample: the claim says the level is always one of
high/medium/low, but the analyzer returns the fourth level `unknown` (for
instance on the empty formula, which the claim's rule would classify as
medium). -/
theorem C7_counterexample :
    ¬ (∀ s : Str, estimate_complexity s = ComplexityLevel.high ∨
        estimate_complexity s = ComplexityLevel.medium ∨
        estimate_complexity s = ComplexityLevel.low) := by
  intro h
  have h0 := h []
  revert h0
  decide

end HakGal

namespace HakGal

theorem update_performance_getters (ps : PortfolioState) (name f : Str) (b : Bool) (d : ℚ) :
    usage_of (update_performance ps name f b d) name = usage_of ps name + 1 ∧
    success_rate_of (update_performance ps name f b d) name
      = (success_rate_of ps name * (usage_of ps name : ℚ) + (if b then 1 else 0))
          / ((usage_of ps name : ℚ) + 1) ∧
    avg_duration_of (update_performance ps name f b d) name
      = (avg_duration_of ps name * (usage_of ps name : ℚ) + d)
          / ((usage_of ps name : ℚ) + 1) := by
  unfold update_performance usage_of success_rate_of avg_duration_of
  simp [lookup_alUpdate_self]

theorem update_performance_products (ps : PortfolioState) (name f : Str) (b : Bool) (d : ℚ) :
    success_rate_of (update_performance ps name f b d) name
        * (usage_of (update_performance ps name f b d) name : ℚ)
      = success_rate_of ps name * (usage_of ps name : ℚ) + (if b then 1 else 0) ∧
    avg_duration_of (update_performance ps name f b d) name
        * (usage_of (update_performance ps name f b d) name : ℚ)
      = avg_duration_of ps name * (usage_of ps name : ℚ) + d := by
  obtain ⟨h1, h2, h3⟩ := update_performance_getters ps name f b d
  have hne : ((usage_of ps name : ℚ) + 1) ≠ 0 := by positivity
  rw [h1, h2, h3]
  push_cast
  constructor
  · field_simp
  · field_simp

theorem apply_updates_spec (name : Str) :
    ∀ (updates : List (Bool × ℚ)) (ps : PortfolioState),
      usage_of (apply_updates name updates ps) name = usage_of ps name + updates.length ∧
      success_rate_of (apply_updates name updates ps) name
          * (usage_of (apply_updates name updates ps) name : ℚ)
        = success_rate_of ps name * (usage_of ps name : ℚ)
            + ((updates.filter (fun u => u.1)).length : ℚ) ∧
      avg_duration_of (apply_updates name updates ps) name
          * (usage_of (apply_updates name updates ps) name : ℚ)
        = avg_duration_of ps name * (usage_of ps name : ℚ) + (updates.map (fun u => u.2)).sum := by
  intro updates
  induction updates with
  | nil =>
    intro ps
    simp [apply_updates]
  | cons u rest ih =>
    intro ps
    obtain ⟨b, d⟩ := u
    have hstep := update_performance_getters ps name [] b d
    have hprod := update_performance_products ps name [] b d
    have hrec := ih (update_performance ps name [] b d)
    have hfold : apply_updates name ((b, d) :: rest) ps
        = apply_updates name rest (update_performance ps name [] b d) := rfl
    rw [hfold]
    refine ⟨?_, ?_, ?_⟩
    · rw [hrec.1, hstep.1]
      simp only [List.length_cons]
      omega
    · rw [hrec.2.1, hprod.1]
      rcases b with _ | _ <;> simp [List.filter_cons] <;> push_cast <;> ring
    · rw [hrec.2.2, hprod.2]
      simp only [List.map_cons, List.sum_cons]
      ring

/-- C8: after any sequence of `n` performance updates for a prover (each
marked definitive or not — the kernel passes `success is not None`, and
`False` when the prover raised — together with its measured duration, floats
modelled as exact rationals), the record satisfies `usage_count = n`,
`success_rate · n = number of definitive updates`, `avg_duration · n = sum of
durations`, and hence `avg_duration` is the mean duration once `n > 0`. -/
theorem C8_statistics_identity (name : Str) (updates : List (Bool × ℚ)) :
    usage_of (apply_updates name updates initPortfolio) name = updates.length ∧
    success_rate_of (apply_updates name updates initPortfolio) name * (updates.length : ℚ)
      = ((updates.filter (fun u => u.1)).length : ℚ) ∧
    avg_duration_of (apply_updates name updates initPortfolio) name * (updates.length : ℚ)
      = (updates.map (fun u => u.2)).sum ∧
    (updates ≠ [] →
      avg_duration_of (apply_updates name updates initPortfolio) name
        = (updates.map (fun u => u.2)).sum / (updates.length : ℚ)) := by
  have h := apply_updates_spec name updates initPortfolio
  have h0u : usage_of initPortfolio name = 0 := by
    simp [initPortfolio, usage_of, lookupKey]
  have h0r : success_rate_of initPortfolio name = 0 := by
    simp [initPortfolio, success_rate_of, lookupKey]
  have h0a : avg_duration_of initPortfolio name = 0 := by
    simp [initPortfolio, avg_duration_of, lookupKey]
  rw [h0u, h0r, h0a] at h
  obtain ⟨h1, h2, h3⟩ := h
  simp only [zero_add, zero_mul, Nat.cast_zero, mul_zero] at h1 h2 h3
  rw [h1] at h2 h3
  refine ⟨h1, h2, h3, ?_⟩
  intro hne
  have hlen : ((updates.length : ℚ)) ≠ 0 := by
    have : updates.length ≠ 0 := by
      intro hc
      exact hne (List.length_eq_zero.mp hc)
    exact_mod_cast this
  rw [eq_div_iff hlen]
  exact h3

/-- C8 witness: two updates — a definitive one of duration 1 and a
non-definitive one of duration 3 — give `usage_count = 2`,
`success_rate · 2 = 1` and mean duration 2. -/
theorem C8_witness :
    usage_of (apply_updates "Z3".toList [(true, 1), (false, 3)] initPortfolio) "Z3".toList
        = 2 ∧
    success_rate_of (apply_updates "Z3".toList [(true, 1), (false, 3)] initPortfolio)
        "Z3".toList * ((2 : Nat) : ℚ) = 1 ∧
    avg_duration_of (apply_updates "Z3".toList [(true, 1), (false, 3)] initPortfolio)
        "Z3".toList = 2 := by
  obtain ⟨h1, h2, h3, h4⟩ := C8_statistics_identity "Z3".toList [(true, 1), (false, 3)]
  refine ⟨h1, ?_, ?_⟩
  · rw [show (([(true, (1 : ℚ)), (false, 3)].filter (fun u => u.1)).length : ℚ) = 1 from by
      norm_num] at h2
    exact h2
  · have := h4 (by simp)
    rw [this]
    norm_num

end HakGal

namespace HakGal

theorem wolframAnswerScan_true (query : Str) :
    ∀ (answers : List (Option Str)) {v : Bool} {r : Str},
      wolframAnswerScan query answers = some (v, r) → v = true := by
  intro answers
  induction answers with
  | nil => intro v r h; simp [wolframAnswerScan] at h
  | cons a rest ih =>
    intro v r h
    rcases a with _ | raw
    · exact ih h
    · rw [wolframAnswerScan] at h
      dsimp only at h
      repeat' split at h
      all_goals first
        | (cases h; rfl)
        | exact ih h

theorem wolfram_http_never_false (query : Str) (env : WolframEnv) :
    (wolfram_http query env).1.1 ≠ some false ∧
    ((∀ q v r, lookupKey q env.cache = some (v, r) → v = true) →
      ∀ q v r, lookupKey q (wolfram_http query env).2 = some (v, r) → v = true) := by
  unfold wolfram_http
  rcases hr : env.response with ename | answers
  · dsimp only
    exact ⟨by simp, fun h => h⟩
  · dsimp only
    rcases hs : wolframAnswerScan query answers with _ | ⟨v0, r0⟩
    · dsimp only
      exact ⟨by simp, fun h => h⟩
    · dsimp only
      have hv0 : v0 = true := wolframAnswerScan_true query answers hs
      subst hv0
      refine ⟨by simp, ?_⟩
      intro hinv q v r hl
      rcases lookup_alUpdate_cases hl with ⟨_, hvr⟩ | hold
      · exact congrArg Prod.fst hvr
      · exact hinv q v r hold

/-- C9: the oracle adapter never refutes.  Under the reachable-cache
invariant (every oracle-cache entry was stored by the adapter itself, hence
with a proved verdict), `WolframProver.prove` returns proved or unknown for
every assumption list, goal and environment — unconfigured client, goals
with connectives or quantifiers, untranslatable formulas, unusable answers
and raised exceptions all yield unknown — and the invariant is preserved. -/
theorem C9_wolfram_never_refutes (env : WolframEnv) (assumptions : List Str) (goal : Str)
    (hcache : ∀ q v r, lookupKey q env.cache = some (v, r) → v = true) :
    (wolfram_prove env assumptions goal).1.1 ≠ some false ∧
    (∀ q v r, lookupKey q (wolfram_prove env assumptions goal).2 = some (v, r) → v = true) := by
  unfold wolfram_prove
  by_cases h1 : env.clientConfigured = true
  · simp only [h1]
    rw [if_neg (by simp)]
    by_cases h2 : (containsSub "->".toList goal || containsSub "&".toList goal
        || containsSub "|".toList goal || containsSub "all ".toList goal) = true
    · rw [if_pos h2]
      exact ⟨by simp, hcache⟩
    · rw [if_neg h2]
      try dsimp only
      by_cases h3 : (simple_translate goal).isEmpty = true
      · rw [if_pos h3]
        exact ⟨by simp, hcache⟩
      · rw [if_neg h3]
        rcases hl : lookupKey (simple_translate goal) env.cache with _ | ⟨cv, cr⟩
        · dsimp only
          exact (wolfram_http_never_false (simple_translate goal) env).imp id
            (fun f => f hcache)
        · dsimp only
          have hcv : cv = true := hcache _ _ _ hl
          subst hcv
          by_cases h4 : env.fresh (simple_translate goal) = true
          · rw [if_pos h4]
            exact ⟨by simp, hcache⟩
          · rw [if_neg h4]
            exact (wolfram_http_never_false (simple_translate goal) env).imp id
              (fun f => f hcache)
  · rw [if_pos h1]
    exact ⟨by simp, hcache⟩

/-- C9 witness: a configured client answering a capital query with
`Berlin, Germany` yields a proved verdict (never refuted) on an
initially empty oracle cache, and every resulting cache entry is proved. -/
theorem C9_witness :
    ((wolfram_prove ⟨true, [], fun _ => true, Except.ok [some "Berlin, Germany".toList]⟩ []
        "HauptstadtVon(Deutschland).".toList).1.1 ≠ some false) ∧
    (∀ q v r, lookupKey q (wolfram_prove ⟨true, [], fun _ => true,
        Except.ok [some "Berlin, Germany".toList]⟩ []
        "HauptstadtVon(Deutschland).".toList).2 = some (v, r) → v = true) :=
  C9_wolfram_never_refutes ⟨true, [], fun _ => true, Except.ok [some "Berlin, Germany".toList]⟩
    [] "HauptstadtVon(Deutschland).".toList
    (fun q v r h => absurd h (by simp [lookupKey]))

end HakGal
